import Mathlib

/-!
Shallow embedding of `examples/python/gee_score_test_simulation.py`.

The script is a Monte Carlo simulation: it generates within-cluster
correlated uniform values via a Gaussian copula, maps them to negative
binomial counts (`negbinom`), fits null and alternative GEE Poisson models,
and runs a robust score test per replicate (`dosim`), then reports summary
tables for two working covariance structures.

Modelling conventions:
* Floating point numbers are modelled by an arbitrary linear ordered field
  `K` (instantiated with `ℚ` in concrete witnesses).  `np.mean` of an empty
  array yields NaN in the implementation; this is modelled by `npMean`
  returning `none` on the empty list.
* The external numerical library routines (normal/gamma samplers, the
  standard normal CDF, the Poisson quantile function `poisson.ppf`, `np.exp`,
  `np.sqrt`, the GEE fitter and the score test) are black-box collaborators
  of the script; they are modelled as parameters, collected in `Oracle`.
  Ambient RNG state is modelled by indexing each replicate's realized draws
  with the replicate counter `k`.
* Every arithmetic expression, list construction and call sequence of the
  script itself is transcribed directly from the source.
-/

namespace GEESim

variable {K : Type} [LinearOrderedField K]

/-- np.kron(a, np.ones(mm)): each element of `a` repeated `mm` times,
in order (used both for the group labels and for broadcasting the
cluster-level normal draw across each cluster). -/
def npKronOnes : List K → ℕ → List K
  | [], _ => []
  | a :: t, mm => List.replicate mm a ++ npKronOnes t mm

/-- np.arange(k): the list 0, 1, ..., k-1 (as field elements, since numpy
produces a float array here). -/
def npArange (k : ℕ) : List K :=
  (List.range k).map (fun i : ℕ => (i : K))

/-- np.mean of a list.  numpy returns NaN on an empty array; that failure
value is modelled as `none`. -/
def npMean (l : List K) : Option K :=
  if l.length = 0 then none else some (l.sum / (l.length : K))

/-- np.dot of two vectors (zip-truncating, as all call sites have equal
lengths). -/
def dot (a b : List K) : K :=
  ((a.zip b).map (fun q => q.1 * q.2)).sum

/-- Sample size: `n = 1000`. -/
def n : ℕ := 1000

/-- Number of covariates (including intercept) in the alternative model:
`p = 5`. -/
def p : ℕ := 5

/-- Cluster size: `m = 10`. -/
def m : ℕ := 10

/-- The parameter `r = 0.5` that the script combines the per-observation
and cluster-level normal draws with. -/
def r : K := 0.5

/-- Group indicators: `grp = np.kron(np.arange(n / m), np.ones(m))`. -/
def grp : List K := npKronOnes (npArange (n / m)) m

/-- Scale parameter for the negative binomial distribution: `scale = 10`. -/
def scale : K := 10

/-- The design matrix of the alternative model:
`x = np.random.normal(size=(n, p)); x[:, 0] = 1`.  The realized normal
draw is the parameter `xr`; the first column is overwritten with 1. -/
def x (xr : ℕ → ℕ → K) : List (List K) :=
  (List.range n).map (fun i => (List.range p).map (fun j => if j = 0 then 1 else xr i j))

/-- The null design matrix: `x0 = x[:, 0:3]` (first three columns of `x`). -/
def x0 (xr : ℕ → ℕ → K) : List (List K) :=
  (x xr).map (fun row => row.take 3)

/-- Source: `coeff[0] = [4, 0.4, -0.2]`. -/
def coeff0 : List K := [4, 0.4, -0.2]

/-- Source: `coeff[1] = [4, 0.4, -0.2, 0, -0.04]`. -/
def coeff1 : List K := [4, 0.4, -0.2, 0, -0.04]

/-- Source: `lp[0] = np.dot(x0, coeff[0])`. -/
def lp0 (xr : ℕ → ℕ → K) : List K :=
  (x0 xr).map (fun row => dot row coeff0)

/-- Source: `lp[1] = np.dot(x, coeff[1])`. -/
def lp1 (xr : ℕ → ℕ → K) : List K :=
  (x xr).map (fun row => dot row coeff1)

/-- Source: `mu = [np.exp(lp[0]), np.exp(lp[1])]`, with `np.exp` passed in as the
black-box elementwise exponential `e`. -/
def mu (e : K → K) (xr : ℕ → ℕ → K) : List (List K) :=
  [(lp0 xr).map e, (lp1 xr).map e]

/-- In `negbinom`: `p = (scale - 1) / scale`. -/
def nbP (scale : K) : K := (scale - 1) / scale

/-- In `negbinom`: the gamma shape `r = mu * (1 - p) / p` for one mean
value. -/
def nbShape (muv scale : K) : K := muv * (1 - nbP scale) / nbP scale

/-- In `negbinom`: the gamma scale parameter `p / (1 - p)`. -/
def nbGammaScale (scale : K) : K := nbP scale / (1 - nbP scale)

/-- The body of `negbinom(u, mu, scale)`:
`x = np.random.gamma(r, p / (1 - p), len(u))` with elementwise shapes
`r = mu * (1 - p) / p`, followed by `poisson.ppf(u, mu=x)` elementwise.
The gamma sampler (realized draws, given the shape vector, scale parameter
and requested size) and the Poisson quantile function are black-box
parameters. -/
def negbinom (gamma : List K → K → ℕ → List K) (ppf : K → K → K)
    (u mu : List K) (scale : K) : List K :=
  let xg := gamma (mu.map (fun muv => nbShape muv scale)) (nbGammaScale scale) u.length
  (u.zip xg).map (fun q => ppf q.1 q.2)

/-- The combination step of the correlated-uniform generator:
`z = r * z + np.sqrt(1 - r**2) * u`, where the second argument `uk` is the
already cluster-replicated vector `np.kron(u, np.ones(m))` and `sq` is the
black-box square root. -/
def corrZ (sq : K → K) (rv : K) (z uk : List K) : List K :=
  (z.zip uk).map (fun q => rv * q.1 + sq (1 - rv ^ 2) * q.2)

/-- The statsmodels working covariance structures that the script passes to
the GEE fitter (`sm.cov_struct.Independence()` and
`sm.cov_struct.Exchangeable()`), consumed opaquely. -/
inductive CovStruct where
  | independence : CovStruct
  | exchangeable : CovStruct

/-- The mean-response family passed to the GEE constructor
(`sm.families.Poisson()`). -/
inductive Family where
  | poisson : Family

/-- The scale estimation method passed to `.fit` (the script always uses
Pearson: `scale='X2'`). -/
inductive ScaleMethod where
  | X2 : ScaleMethod

/-- The argument record of one `sm.GEE(y, design, groups=grp,
cov_struct=cov_struct, family=...)` constructor call. -/
structure GEESpec (K : Type) where
  endog : List K
  exog : List (List K)
  groups : List K
  cov_struct : CovStruct
  family : Family

/-- The result object of a `.fit` call; the script only reads its `.scale`
attribute. -/
structure GEEResults (K : Type) where
  scale : K

/-- The black-box collaborators of the script (spec §6), together with the
ambient randomness: `zNormal k` and `uNormal k` are the realized
`np.random.normal` draws of replicate `k`, `gammaSample k` the realized
`np.random.gamma` draw of replicate `k` (as a function of shape vector,
scale parameter and size), `sq`/`exp`/`normCdf`/`poissonPpf` the numeric
library functions, `fit` the GEE fitter and `scoreTest` the p-value of
`m1.compare_score_test(r0)`. -/
structure Oracle (K : Type) where
  sq : K → K
  exp : K → K
  normCdf : K → K
  poissonPpf : K → K → K
  zNormal : ℕ → List K
  uNormal : ℕ → List K
  gammaSample : ℕ → List K → K → ℕ → List K
  fit : GEESpec K → ScaleMethod → GEEResults K
  scoreTest : GEESpec K → GEEResults K → K

/-- One event of a Monte Carlo replicate, recording each step of the loop
body together with the arguments it was performed with and its result. -/
inductive Event (K : Type) where
  | genUniform : ℕ → ℕ → K → List K → Event K
  | genResponse : List K → List K → K → List K → Event K
  | fitGEE : GEESpec K → ScaleMethod → GEEResults K → Event K
  | recordScale : ℕ → K → Event K
  | scoreTest : GEESpec K → GEEResults K → K → Event K

/-- The output of one iteration of the Monte Carlo loop of `dosim`: the two
recorded scale estimates, the recorded p-value, and the trace of steps
performed. -/
structure ReplicateOut (K : Type) where
  scale0 : K
  scale1 : K
  pv : K
  trace : List (Event K)

/-- The correlated-uniform vector of replicate `k`:
`z = np.random.normal(size=n)`, `u = np.random.normal(size=n // m)`,
`u = np.kron(u, np.ones(m))`, `z = r * z + np.sqrt(1 - r**2) * u`,
`u = norm.cdf(z)`. -/
def corrUniform (O : Oracle K) (k : ℕ) : List K :=
  (corrZ O.sq r (O.zNormal k) (npKronOnes (O.uNormal k) m)).map O.normCdf

/-- The response vector of replicate `k`:
`y = negbinom(u, mu=mu[hyp], scale=scale)`. -/
def respVec (O : Oracle K) (xr : ℕ → ℕ → K) (hyp : Fin 2) (k : ℕ) : List K :=
  negbinom (O.gammaSample k) O.poissonPpf (corrUniform O k) ((mu O.exp xr).get hyp) scale

/-- The null-model constructor arguments:
`sm.GEE(y, x0, groups=grp, cov_struct=cov_struct, family=sm.families.Poisson())`. -/
def nullSpec (xr : ℕ → ℕ → K) (cov : CovStruct) (y : List K) : GEESpec K :=
  ⟨y, x0 xr, grp, cov, Family.poisson⟩

/-- The alternative-model constructor arguments:
`sm.GEE(y, x, groups=grp, cov_struct=cov_struct, family=sm.families.Poisson())`. -/
def altSpec (xr : ℕ → ℕ → K) (cov : CovStruct) (y : List K) : GEESpec K :=
  ⟨y, x xr, grp, cov, Family.poisson⟩

/-- The fitted null model of replicate `k`: `r0 = m0.fit(scale='X2')`. -/
def nullFit (O : Oracle K) (xr : ℕ → ℕ → K) (hyp : Fin 2) (cov : CovStruct) (k : ℕ) :
    GEEResults K :=
  O.fit (nullSpec xr cov (respVec O xr hyp k)) ScaleMethod.X2

/-- The fitted alternative model of replicate `k`: `r1 = m1.fit(scale='X2')`. -/
def altFit (O : Oracle K) (xr : ℕ → ℕ → K) (hyp : Fin 2) (cov : CovStruct) (k : ℕ) :
    GEEResults K :=
  O.fit (altSpec xr cov (respVec O xr hyp k)) ScaleMethod.X2

/-- The score-test p-value of replicate `k`:
`st = m1.compare_score_test(r0); st["p-value"]`. -/
def scoreP (O : Oracle K) (xr : ℕ → ℕ → K) (hyp : Fin 2) (cov : CovStruct) (k : ℕ) : K :=
  O.scoreTest (altSpec xr cov (respVec O xr hyp k)) (nullFit O xr hyp cov k)

/-- One iteration of the Monte Carlo loop of `dosim`, transcribed
statement by statement; the trace records each step in program order. -/
def replicateRun (O : Oracle K) (xr : ℕ → ℕ → K) (hyp : Fin 2) (cov : CovStruct)
    (k : ℕ) : ReplicateOut K :=
  let u := corrUniform O k
  let y := negbinom (O.gammaSample k) O.poissonPpf u ((mu O.exp xr).get hyp) scale
  let m0 := nullSpec xr cov y
  let r0 := O.fit m0 ScaleMethod.X2
  let m1 := altSpec xr cov y
  let r1 := O.fit m1 ScaleMethod.X2
  let pval := O.scoreTest m1 r0
  ⟨r0.scale, r1.scale, pval,
    [Event.genUniform n m r u,
     Event.genResponse u ((mu O.exp xr).get hyp) scale y,
     Event.fitGEE m0 ScaleMethod.X2 r0,
     Event.recordScale 0 r0.scale,
     Event.fitGEE m1 ScaleMethod.X2 r1,
     Event.recordScale 1 r1.scale,
     Event.scoreTest m1 r0 pval]⟩

/-- The list `pv` of p-values collected by the Monte Carlo loop of `dosim`
(appended in loop order `k = 0, ..., mcrep - 1`). -/
def dosimPvs (O : Oracle K) (xr : ℕ → ℕ → K) (hyp : Fin 2) (cov : CovStruct)
    (mcrep : ℕ) : List K :=
  ((List.range mcrep).map (replicateRun O xr hyp cov)).map (fun rep => rep.pv)

/-- The Python default value of the `mcrep` parameter of `dosim`. -/
def mcrepDefault : ℕ := 500

/-- The driver `dosim(hyp, cov_struct, mcrep)`: runs the Monte Carlo loop and returns
`rslt, scales` where `rslt = [np.mean(pv), np.mean(pv < 0.1)]` and
`scales = [scales[0], scales[1]]` holds the scale estimates appended per
iteration from the null fit and the alternative fit respectively.  (In the
source `cov_struct` defaults to `None` and `mcrep` to 500; every call site
passes `cov_struct` explicitly, and the default replicate count is
`mcrepDefault`.) -/
def dosim (O : Oracle K) (xr : ℕ → ℕ → K) (hyp : Fin 2) (cov : CovStruct)
    (mcrep : ℕ) : List (Option K) × List (List K) :=
  let rs := (List.range mcrep).map (replicateRun O xr hyp cov)
  let pv := rs.map (fun rep => rep.pv)
  ([npMean pv, npMean (pv.map (fun v => if v < 0.1 then 1 else 0))],
   [rs.map (fun rep => rep.scale0), rs.map (fun rep => rep.scale1)])

/-- The first reporting cycle: `for hyp in 0, 1: dosim(hyp,
sm.cov_struct.Independence())`, at the default replicate count. -/
def reportCycle1 (O : Oracle K) (xr : ℕ → ℕ → K) :
    List (List (Option K) × List (List K)) :=
  ([0, 1] : List (Fin 2)).map (fun hyp => dosim O xr hyp CovStruct.independence mcrepDefault)

/-- The second reporting cycle: `for hyp in 0, 1: dosim(hyp,
sm.cov_struct.Exchangeable(), mcrep=100)`. -/
def reportCycle2 (O : Oracle K) (xr : ℕ → ℕ → K) :
    List (List (Option K) × List (List K)) :=
  ([0, 1] : List (Fin 2)).map (fun hyp => dosim O xr hyp CovStruct.exchangeable 100)

/-- The whole reporting stage: the independence cycle, then the
exchangeable cycle. -/
def reportStage (O : Oracle K) (xr : ℕ → ℕ → K) :
    List (List (Option K) × List (List K)) × List (List (Option K) × List (List K)) :=
  (reportCycle1 O xr, reportCycle2 O xr)

/-- A concrete oracle over `ℚ`, used to instantiate the general theorems
in closed witnesses. -/
def demoOracle : Oracle ℚ :=
  ⟨fun a => a, fun a => a, fun a => a, fun _ _ => 0,
   fun _ => List.replicate n 0, fun _ => List.replicate (n / m) 0,
   fun _ _ _ len => List.replicate len 1,
   fun _ _ => ⟨1⟩, fun _ _ => 1 / 2⟩

/-- A concrete realized design-matrix draw over `ℚ`. -/
def demoDraw : ℕ → ℕ → ℚ := fun _ _ => 0

theorem npKronOnes_length (l : List K) (mm : ℕ) :
    (npKronOnes l mm).length = l.length * mm := by
  induction l with
  | nil => simp [npKronOnes]
  | cons a t ih =>
    simp only [npKronOnes, List.length_append, List.length_replicate, ih, List.length_cons]
    ring

theorem range_getElemQ (k i : ℕ) :
    (List.range k)[i]? = if i < k then some i else none := by
  by_cases h : i < k
  · rw [if_pos h, List.getElem?_eq_getElem (by simpa using h)]
    simp
  · rw [if_neg h, List.getElem?_eq_none]
    simpa using Nat.le_of_not_lt h

theorem npArange_getElemQ (k i : ℕ) :
    (npArange k : List K)[i]? = if i < k then some ((i : K)) else none := by
  rw [npArange]
  have hlen : ((List.range k).map (fun j : ℕ => (j : K))).length = k := by
    rw [List.length_map, List.length_range]
  by_cases h : i < k
  · rw [if_pos h, List.getElem?_eq_getElem (by rw [hlen]; exact h)]
    rw [Option.some_inj, List.getElem_map, List.getElem_range]
  · rw [if_neg h, List.getElem?_eq_none (by rw [hlen]; exact Nat.le_of_not_lt h)]

theorem npKronOnes_getElemQ (l : List K) (mm : ℕ) (hm : 0 < mm) (i : ℕ) :
    (npKronOnes l mm)[i]? = l[i / mm]? := by
  induction l generalizing i with
  | nil => simp [npKronOnes]
  | cons a t ih =>
    rw [show npKronOnes (a :: t) mm = List.replicate mm a ++ npKronOnes t mm from rfl,
      List.getElem?_append]
    by_cases h : i < mm
    · rw [if_pos (by simpa using h), List.getElem?_replicate, if_pos h, Nat.div_eq_of_lt h]
      simp
    · have hmi : mm ≤ i := Nat.le_of_not_lt h
      obtain ⟨j, rfl⟩ : ∃ j, i = j + mm := ⟨i - mm, (Nat.sub_add_cancel hmi).symm⟩
      rw [if_neg (by simp)]
      simp only [List.length_replicate, Nat.add_sub_cancel]
      rw [ih j, Nat.add_div_right j hm]
      simp

theorem sum_indicator_eq_countP (l : List K) (c : K) :
    (l.map (fun v => if v < c then (1 : K) else 0)).sum
      = ((l.countP (fun v => decide (v < c)) : ℕ) : K) := by
  induction l with
  | nil => simp
  | cons a t ih =>
    by_cases h : a < c
    · simp only [List.map_cons, List.sum_cons, if_pos h, List.countP_cons, ih]
      rw [if_pos (by simpa using h)]
      push_cast
      ring
    · simp only [List.map_cons, List.sum_cons, if_neg h, List.countP_cons, ih]
      rw [if_neg (by simpa using h)]
      simp

theorem npMean_mem_unitInterval (l : List K) (h0 : l.length ≠ 0)
    (hb : ∀ w ∈ l, 0 ≤ w ∧ w ≤ 1) :
    npMean l = some (l.sum / (l.length : K)) ∧
      0 ≤ l.sum / (l.length : K) ∧ l.sum / (l.length : K) ≤ 1 := by
  have hlpos : (0 : K) < (l.length : K) := by
    exact_mod_cast Nat.pos_of_ne_zero h0
  refine ⟨by simp [npMean, h0], ?_, ?_⟩
  · exact div_nonneg (List.sum_nonneg (fun w hw => (hb w hw).1)) (le_of_lt hlpos)
  · rw [div_le_one hlpos]
    calc l.sum ≤ l.length • (1 : K) := List.sum_le_card_nsmul l 1 (fun w hw => (hb w hw).2)
    _ = (l.length : K) := by simp

/-- C4: for every dispersion `scale > 1` and every positive mean value,
the gamma parameterization used inside `negbinom` — shape
`nbShape muv scale = muv * (1 - p) / p` and scale parameter
`nbGammaScale scale = p / (1 - p)` with `p = (scale - 1) / scale` —
satisfies the exact identity `shape * scaleParameter = muv`, so the latent
gamma intensity has mean `muv`. -/
theorem negbinom_gamma_mean_identity (sc muv : K) (hsc : 1 < sc) (hmu : 0 < muv) :
    nbShape muv sc * nbGammaScale sc = muv := by
  have hs0 : sc ≠ 0 := ne_of_gt (lt_trans zero_lt_one hsc)
  have hs1 : sc - 1 ≠ 0 := sub_ne_zero.mpr (ne_of_gt hsc)
  rw [nbShape, nbGammaScale, nbP]
  field_simp

/-- C5: under the precondition `scale > 1`, every divisor inside
`negbinom` is nonzero (`scale ≠ 0`, `p ∈ (0,1)`, `1 - p ∈ (0,1)`) and the
gamma shape and scale parameters are strictly positive for positive means;
`negbinom` performs no validation, and for `scale = 1` the intermediate
`p` is `0`, so the shape computation `muv * (1 - p) / p` divides by zero
(yielding the junk value `0`, not a valid gamma shape), and no
`scale ≤ 1` (with `scale ≠ 0`) gives `p ∈ (0,1)`. -/
theorem negbinom_division_safety (sc muv : K) (hsc : 1 < sc) (hmu : 0 < muv) :
    sc ≠ 0 ∧ 0 < nbP sc ∧ nbP sc < 1 ∧ 0 < 1 - nbP sc ∧ 1 - nbP sc < 1 ∧
      0 < nbShape muv sc ∧ 0 < nbGammaScale sc ∧
      nbP (1 : K) = 0 ∧ nbShape muv 1 = 0 ∧
      (∀ t : K, t ≤ 1 → t ≠ 0 → ¬(0 < nbP t ∧ nbP t < 1)) := by
  have hs : (0 : K) < sc := lt_trans zero_lt_one hsc
  have hp : 0 < nbP sc := div_pos (by linarith) hs
  have hp1 : nbP sc < 1 := by
    rw [nbP, div_lt_one hs]
    linarith
  refine ⟨ne_of_gt hs, hp, hp1, by linarith, by linarith, ?_, ?_, ?_, ?_, ?_⟩
  · exact div_pos (mul_pos hmu (by linarith)) hp
  · exact div_pos hp (by linarith)
  · norm_num [nbP]
  · simp [nbShape, nbP]
  · intro t ht ht0 hcon
    obtain ⟨hpos, hlt⟩ := hcon
    rcases lt_trichotomy t 0 with htn | htz | htp
    · have hgt : 1 < nbP t := by
        rw [nbP, lt_div_iff_of_neg htn]
        linarith
      linarith
    · exact ht0 htz
    · rcases eq_or_lt_of_le ht with hteq | htlt
      · rw [hteq] at hpos
        norm_num [nbP] at hpos
      · have : nbP t < 0 := div_neg_of_neg_of_pos (by linarith) htp
        linarith

/-- C6: for every uniform vector with values in `(0, 1)`, the output of
`negbinom` has the same length as the input and consists of non-negative
integers, given the black-box contracts of the gamma sampler (returns the
requested number of draws) and of the Poisson quantile function (returns a
natural number on arguments in `(0, 1)`). -/
theorem negbinom_output_counts (gamma : List K → K → ℕ → List K) (ppf : K → K → K)
    (u muv : List K) (sc : K)
    (hg : ∀ shapes s len, (gamma shapes s len).length = len)
    (hppf : ∀ q mv, 0 < q → q < 1 → ∃ kk : ℕ, ppf q mv = (kk : K))
    (hu : ∀ v ∈ u, 0 < v ∧ v < 1) :
    (negbinom gamma ppf u muv sc).length = u.length ∧
      ∀ w ∈ negbinom gamma ppf u muv sc, ∃ kk : ℕ, w = (kk : K) ∧ 0 ≤ w := by
  constructor
  · simp [negbinom, List.length_zip, hg]
  · intro w hw
    simp only [negbinom, List.mem_map] at hw
    obtain ⟨⟨qa, qb⟩, hq, rfl⟩ := hw
    obtain ⟨hu0, hu1⟩ := hu qa (List.of_mem_zip hq).1
    obtain ⟨kk, hk⟩ := hppf qa qb hu0 hu1
    exact ⟨kk, hk, by rw [hk]; exact Nat.cast_nonneg kk⟩

/-- C1 counterexample: the claim that `r = 1` makes the combined vector
`z = r * z + np.sqrt(1 - r**2) * u` constant within each cluster, and that
`r = 0` makes it equal to the per-observation draws, is false at a
concrete draw.  With `r = 1` the square root is taken at `1 - 1^2 = 0`
(where the modelled square root `fun a => a` agrees with the real one),
and the combined vector keeps the distinct per-observation values `0` and
`1` at positions `0` and `1` of the same cluster (`0 / m = 1 / m`); with
`r = 0` (square root taken at `1 - 0^2 = 1`, again agreeing) position `0`
holds the cluster draw `5`, not the per-observation draw `0`. -/
theorem corrZ_claim_false :
    (corrZ (fun a : ℚ => a) 1 [0, 1] (npKronOnes [0] m))[0]? = some 0 ∧
    (corrZ (fun a : ℚ => a) 1 [0, 1] (npKronOnes [0] m))[1]? = some 1 ∧
    (0 : ℚ) ≠ 1 ∧ 0 / m = 1 / m ∧
    (corrZ (fun a : ℚ => a) 0 [0, 1] (npKronOnes [5] m))[0]? = some 5 ∧
    [(0 : ℚ), 1][0]? = some 0 ∧ (5 : ℚ) ≠ 0 ∧
    (fun a : ℚ => a) 0 = 0 ∧ (fun a : ℚ => a) 1 = 1 := by
  refine ⟨?_, ?_, by norm_num, by norm_num [m], ?_, rfl, by norm_num, rfl, rfl⟩
  · norm_num [corrZ, npKronOnes, m]
  · norm_num [corrZ, npKronOnes, m]
  · norm_num [corrZ, npKronOnes, m]

/-- C1 (amended): in the combination `z = r * z + np.sqrt(1 - r**2) * u`
performed by the script, the roles are the opposite of the claim: `r = 1`
makes the combined vector equal to the independent per-observation draws
`z`, while `r = 0` makes it equal to the cluster-replicated draws
`np.kron(u, np.ones(m))` — hence constant within each cluster (positions
with the same `i / m` carry the same value).  Stated for any square-root
function agreeing with the real one at the two reachable arguments `0`
and `1`. -/
theorem corrZ_dependence_roles (sq : K → K) (z u0 : List K)
    (h0 : sq 0 = 0) (h1 : sq 1 = 1) (hlen : z.length = u0.length * m) :
    corrZ sq 1 z (npKronOnes u0 m) = z ∧
    corrZ sq 0 z (npKronOnes u0 m) = npKronOnes u0 m ∧
    ∀ i j : ℕ, i / m = j / m →
      (corrZ sq 0 z (npKronOnes u0 m))[i]? = (corrZ sq 0 z (npKronOnes u0 m))[j]? := by
  have hk : (npKronOnes u0 m : List K).length = u0.length * m := npKronOnes_length u0 m
  have hzk : z.length ≤ (npKronOnes u0 m : List K).length := le_of_eq (hlen.trans hk.symm)
  have e1 : corrZ sq 1 z (npKronOnes u0 m) = z := by
    have hfun : (fun q : K × K => (1 : K) * q.1 + sq (1 - 1 ^ 2) * q.2) = Prod.fst := by
      funext q
      simp [h0]
    rw [corrZ, hfun]
    exact List.map_fst_zip z _ hzk
  have e0 : corrZ sq 0 z (npKronOnes u0 m) = npKronOnes u0 m := by
    have hfun : (fun q : K × K => (0 : K) * q.1 + sq (1 - 0 ^ 2) * q.2) = Prod.snd := by
      funext q
      simp [h1]
    rw [corrZ, hfun]
    exact List.map_snd_zip z _ (le_of_eq (hk.trans hlen.symm))
  refine ⟨e1, e0, ?_⟩
  intro i j hij
  rw [e0, npKronOnes_getElemQ u0 m (by norm_num [m]) i,
    npKronOnes_getElemQ u0 m (by norm_num [m]) j, hij]

/-- C7: the design matrix `x` of the alternative model has `n` rows of
length `p = 5`, each row starting with the constant `1`; the null design
matrix `x0` consists of exactly the first `3` columns of `x` (each row
truncated to its first three entries, so the column-rank deficiency is
`p - 3 = 2`), and both are functions of the single fixed draw `xr`, so
they are fixed for the whole run. -/
theorem design_matrices (xr : ℕ → ℕ → K) :
    (x xr).length = n ∧ p = 5 ∧ p - 3 = 2 ∧
    (x xr).map (fun row => row.length) = List.replicate n p ∧
    (x xr).map (fun row => row.head?) = List.replicate n (some 1) ∧
    x0 xr = (x xr).map (fun row => row.take 3) ∧
    (x0 xr).map (fun row => row.length) = List.replicate n 3 := by
  refine ⟨by simp [x], by norm_num [p], by norm_num [p], ?_, ?_, rfl, ?_⟩
  · rw [x, List.map_map]
    have hc : ((fun row : List K => row.length) ∘
        fun i => (List.range p).map (fun j => if j = 0 then (1 : K) else xr i j))
        = fun _ => p := by
      funext i
      simp
    rw [hc, List.map_const', List.length_range]
  · rw [x, List.map_map]
    have hc : ((fun row : List K => row.head?) ∘
        fun i => (List.range p).map (fun j => if j = 0 then (1 : K) else xr i j))
        = fun _ => some (1 : K) := by
      funext i
      have hr : List.range p = 0 :: [1, 2, 3, 4] := rfl
      rw [Function.comp_apply, hr]
      simp
    rw [hc, List.map_const', List.length_range]
  · rw [x0, x, List.map_map, List.map_map]
    have hc : (((fun row : List K => row.length) ∘ (fun row : List K => row.take 3)) ∘
        fun i => (List.range p).map (fun j => if j = 0 then (1 : K) else xr i j))
        = fun _ => 3 := by
      funext i
      simp [List.length_take, p]
    rw [hc, List.map_const', List.length_range]

/-- C8: the group vector `grp` has length `n = 1000` and its `i`-th entry
is the label `i / m` (as a field element), so it consists of
`n / m = 100` distinct labels, each filling a block of `m = 10`
consecutive positions; two in-range positions carry the same label exactly
when they lie in the same block. -/
theorem group_labels :
    (grp : List K).length = n ∧ n = 1000 ∧ m = 10 ∧ n / m = 100 ∧
    (∀ i : ℕ, (grp : List K)[i]? = if i < n then some ((i / m : ℕ) : K) else none) ∧
    (∀ i j : ℕ, ((grp : List K)[i]? = (grp : List K)[j]?) ↔
      (i / m = j / m ∨ (n ≤ i ∧ n ≤ j))) := by
  have hform : ∀ i : ℕ,
      (grp : List K)[i]? = if i < n then some ((i / m : ℕ) : K) else none := by
    intro i
    rw [grp, npKronOnes_getElemQ _ _ (by norm_num [m]) i, npArange_getElemQ]
    have hiff : i / m < n / m ↔ i < n := by
      simp only [n, m]
      omega
    simp only [hiff]
  refine ⟨?_, by norm_num [n], by norm_num [m], by norm_num [n, m], hform, ?_⟩
  · rw [grp, npKronOnes_length]
    have hlen : (npArange (n / m) : List K).length = n / m := by
      rw [npArange, List.length_map, List.length_range]
    rw [hlen]
    norm_num [n, m]
  · intro i j
    rw [hform i, hform j]
    by_cases hi : i < n <;> by_cases hj : j < n
    · rw [if_pos hi, if_pos hj]
      simp only [Option.some_inj, Nat.cast_inj]
      simp only [n, m] at hi hj ⊢
      omega
    · rw [if_pos hi, if_neg hj]
      simp only [n, m] at hi hj
      constructor
      · intro hcon
        exact absurd hcon (by simp)
      · intro hcon
        exfalso
        simp only [n, m] at hcon
        omega
    · rw [if_neg hi, if_pos hj]
      simp only [n, m] at hi hj
      constructor
      · intro hcon
        exact absurd hcon (by simp)
      · intro hcon
        exfalso
        simp only [n, m] at hcon
        omega
    · rw [if_neg hi, if_neg hj]
      simp only [n, m] at hi hj
      constructor
      · intro hcon
        right
        simp only [n, m]
        omega
      · intro hcon
        rfl

/-- C2: for every hypothesis selector, covariance structure and
`mcrep ≥ 1`, `dosim` returns a 2-element summary whose first component is
the arithmetic mean of the `mcrep` collected p-values and whose second is
the fraction of p-values strictly below `0.1`, together with exactly two
lists of per-replicate scale estimates — the first taken from the
null-model fits, the second from the alternative-model fits — each of
length `mcrep`. -/
theorem dosim_summary (O : Oracle K) (xr : ℕ → ℕ → K) (hyp : Fin 2) (cov : CovStruct)
    (mcrep : ℕ) (hmc : 1 ≤ mcrep) :
    (dosim O xr hyp cov mcrep).1.length = 2 ∧
    (dosim O xr hyp cov mcrep).2.length = 2 ∧
    (dosimPvs O xr hyp cov mcrep).length = mcrep ∧
    (dosim O xr hyp cov mcrep).1 =
      [some ((dosimPvs O xr hyp cov mcrep).sum / (mcrep : K)),
       some ((((dosimPvs O xr hyp cov mcrep).countP (fun v => decide (v < 0.1)) : ℕ) : K)
         / (mcrep : K))] ∧
    (dosim O xr hyp cov mcrep).2 =
      [(List.range mcrep).map (fun k => (nullFit O xr hyp cov k).scale),
       (List.range mcrep).map (fun k => (altFit O xr hyp cov k).scale)] ∧
    (dosim O xr hyp cov mcrep).2.map (fun l => l.length) = [mcrep, mcrep] := by
  have hlenpv : (dosimPvs O xr hyp cov mcrep).length = mcrep := by
    rw [dosimPvs, List.length_map, List.length_map, List.length_range]
  have hne : (dosimPvs O xr hyp cov mcrep).length ≠ 0 := by
    rw [hlenpv]
    omega
  refine ⟨by simp [dosim], by simp [dosim], hlenpv, ?_, ?_, ?_⟩
  · have h1 : npMean (dosimPvs O xr hyp cov mcrep)
        = some ((dosimPvs O xr hyp cov mcrep).sum / (mcrep : K)) := by
      rw [npMean, if_neg hne, hlenpv]
    have hindlen : ((dosimPvs O xr hyp cov mcrep).map
        (fun v => if v < (0.1 : K) then (1 : K) else 0)).length = mcrep := by
      rw [List.length_map, hlenpv]
    have h2 : npMean ((dosimPvs O xr hyp cov mcrep).map
          (fun v => if v < (0.1 : K) then (1 : K) else 0))
        = some ((((dosimPvs O xr hyp cov mcrep).countP
            (fun v => decide (v < 0.1)) : ℕ) : K) / (mcrep : K)) := by
      rw [npMean, if_neg (by rw [hindlen]; omega), hindlen, sum_indicator_eq_countP]
    show [npMean (dosimPvs O xr hyp cov mcrep),
      npMean ((dosimPvs O xr hyp cov mcrep).map
        (fun v => if v < (0.1 : K) then (1 : K) else 0))] = _
    rw [h1, h2]
  · show [((List.range mcrep).map (replicateRun O xr hyp cov)).map (fun rep => rep.scale0),
      ((List.range mcrep).map (replicateRun O xr hyp cov)).map (fun rep => rep.scale1)] = _
    rw [List.map_map, List.map_map]
    rfl
  · simp [dosim]

/-- C3: within each Monte Carlo replicate `k` of `dosim`, the recorded
trace is exactly: generate the correlated uniform vector with the fixed
`n`, `m`, `r`; generate the response from it with the mean vector selected
by the hypothesis and the fixed `scale`; fit the null GEE Poisson model of
the response on `x0` grouped by `grp` with the given covariance structure
and Pearson (`X2`) scale estimation; fit the alternative model identically
on `x`; record both scales; and run the robust score test of the
alternative model against the null fit.  Accordingly, the `k`-th collected
p-value is the score-test p-value of replicate `k` and the two returned
scale lists are the per-replicate null-fit and alternative-fit scales. -/
theorem dosim_replicate_steps (O : Oracle K) (xr : ℕ → ℕ → K) (hyp : Fin 2)
    (cov : CovStruct) (k mcrep : ℕ) :
    (replicateRun O xr hyp cov k).trace =
      [Event.genUniform n m r (corrUniform O k),
       Event.genResponse (corrUniform O k) ((mu O.exp xr).get hyp) scale
         (respVec O xr hyp k),
       Event.fitGEE (nullSpec xr cov (respVec O xr hyp k)) ScaleMethod.X2
         (nullFit O xr hyp cov k),
       Event.recordScale 0 (nullFit O xr hyp cov k).scale,
       Event.fitGEE (altSpec xr cov (respVec O xr hyp k)) ScaleMethod.X2
         (altFit O xr hyp cov k),
       Event.recordScale 1 (altFit O xr hyp cov k).scale,
       Event.scoreTest (altSpec xr cov (respVec O xr hyp k)) (nullFit O xr hyp cov k)
         (scoreP O xr hyp cov k)] ∧
    (dosimPvs O xr hyp cov mcrep)[k]? =
      (if k < mcrep then some (scoreP O xr hyp cov k) else none) ∧
    (dosim O xr hyp cov mcrep).2 =
      [(List.range mcrep).map (fun j => (nullFit O xr hyp cov j).scale),
       (List.range mcrep).map (fun j => (altFit O xr hyp cov j).scale)] := by
  refine ⟨rfl, ?_, ?_⟩
  · rw [dosimPvs, List.getElem?_map, List.getElem?_map, range_getElemQ]
    by_cases h : k < mcrep
    · rw [if_pos h, if_pos h]
      rfl
    · rw [if_neg h, if_neg h]
      rfl
  · show [((List.range mcrep).map (replicateRun O xr hyp cov)).map (fun rep => rep.scale0),
      ((List.range mcrep).map (replicateRun O xr hyp cov)).map (fun rep => rep.scale1)] = _
    rw [List.map_map, List.map_map]
    rfl

/-- C9: with `mcrep = 0` the collected p-value list and both scale lists
of `dosim` are empty and both summary components are the mean of an empty
collection — the NaN failure value, modelled as `none`; with `mcrep ≥ 1`
(and the score-test contract that p-values lie in `[0, 1]`) both summary
components are defined values in `[0, 1]`. -/
theorem dosim_empty_and_bounds (O : Oracle K) (xr : ℕ → ℕ → K) (hyp : Fin 2)
    (cov : CovStruct) :
    dosimPvs O xr hyp cov 0 = [] ∧
    (dosim O xr hyp cov 0).1 = [none, none] ∧
    (dosim O xr hyp cov 0).2 = [[], []] ∧
    ∀ mcrep : ℕ, 1 ≤ mcrep →
      (∀ s : GEESpec K, ∀ res : GEEResults K,
        0 ≤ O.scoreTest s res ∧ O.scoreTest s res ≤ 1) →
      ∃ a b : K, (dosim O xr hyp cov mcrep).1 = [some a, some b] ∧
        0 ≤ a ∧ a ≤ 1 ∧ 0 ≤ b ∧ b ≤ 1 := by
  refine ⟨by simp [dosimPvs], by simp [dosim, npMean], by simp [dosim], ?_⟩
  intro mcrep hmc hb
  have hlenpv : (dosimPvs O xr hyp cov mcrep).length = mcrep := by
    rw [dosimPvs, List.length_map, List.length_map, List.length_range]
  have hbpv : ∀ w ∈ dosimPvs O xr hyp cov mcrep, 0 ≤ w ∧ w ≤ 1 := by
    intro w hw
    rw [dosimPvs, List.map_map] at hw
    obtain ⟨kk, hkk, rfl⟩ := List.mem_map.1 hw
    exact hb (altSpec xr cov (respVec O xr hyp kk)) (nullFit O xr hyp cov kk)
  have hbind : ∀ w ∈ (dosimPvs O xr hyp cov mcrep).map
      (fun v => if v < (0.1 : K) then (1 : K) else 0), 0 ≤ w ∧ w ≤ 1 := by
    intro w hw
    obtain ⟨v, hv, rfl⟩ := List.mem_map.1 hw
    by_cases h : v < (0.1 : K)
    · rw [if_pos h]
      exact ⟨zero_le_one, le_refl 1⟩
    · rw [if_neg h]
      exact ⟨le_refl 0, zero_le_one⟩
  obtain ⟨hm1, hm2, hm3⟩ := npMean_mem_unitInterval (dosimPvs O xr hyp cov mcrep)
    (by rw [hlenpv]; omega) hbpv
  obtain ⟨hn1, hn2, hn3⟩ := npMean_mem_unitInterval ((dosimPvs O xr hyp cov mcrep).map
    (fun v => if v < (0.1 : K) then (1 : K) else 0))
    (by rw [List.length_map, hlenpv]; omega) hbind
  refine ⟨_, _, ?_, hm2, hm3, hn2, hn3⟩
  show [npMean (dosimPvs O xr hyp cov mcrep),
    npMean ((dosimPvs O xr hyp cov mcrep).map
      (fun v => if v < (0.1 : K) then (1 : K) else 0))] = _
  rw [hm1, hn1]

/-- C10: the reporting stage runs the full null/alternative cycle twice —
first with the independence working covariance structure at the default
replicate count (`mcrepDefault = 500`), then with the exchangeable
structure at the strictly smaller replicate count `100`. -/
theorem reporting_cycles (O : Oracle K) (xr : ℕ → ℕ → K) :
    reportStage O xr =
      (([0, 1] : List (Fin 2)).map
        (fun hyp => dosim O xr hyp CovStruct.independence 500),
       ([0, 1] : List (Fin 2)).map
        (fun hyp => dosim O xr hyp CovStruct.exchangeable 100)) ∧
    mcrepDefault = 500 ∧ 100 < mcrepDefault :=
  ⟨rfl, rfl, by norm_num [mcrepDefault]⟩

/-- Witness for the amended C1 theorem at a concrete input over `ℚ`. -/
theorem corrZ_dependence_roles_w :
    corrZ (fun a : ℚ => a) 1 (List.replicate 10 2) (npKronOnes [3] m)
        = List.replicate 10 2 ∧
    corrZ (fun a : ℚ => a) 0 (List.replicate 10 2) (npKronOnes [3] m)
        = npKronOnes [3] m ∧
    (corrZ (fun a : ℚ => a) 0 (List.replicate 10 2) (npKronOnes [3] m))[0]?
        = (corrZ (fun a : ℚ => a) 0 (List.replicate 10 2) (npKronOnes [3] m))[1]? := by
  have h := corrZ_dependence_roles (fun a : ℚ => a) (List.replicate 10 2) [3] rfl rfl
    (by simp [m])
  exact ⟨h.1, h.2.1, h.2.2 0 1 (by decide)⟩

/-- Witness for the C2 theorem at a concrete input over `ℚ` with
`mcrep = 1`. -/
theorem dosim_summary_w :
    (dosim demoOracle demoDraw 0 CovStruct.independence 1).1.length = 2 ∧
    (dosim demoOracle demoDraw 0 CovStruct.independence 1).2.length = 2 ∧
    (dosimPvs demoOracle demoDraw 0 CovStruct.independence 1).length = 1 ∧
    (dosim demoOracle demoDraw 0 CovStruct.independence 1).1 =
      [some ((dosimPvs demoOracle demoDraw 0 CovStruct.independence 1).sum / ((1 : ℕ) : ℚ)),
       some ((((dosimPvs demoOracle demoDraw 0 CovStruct.independence 1).countP
           (fun v => decide (v < 0.1)) : ℕ) : ℚ) / ((1 : ℕ) : ℚ))] ∧
    (dosim demoOracle demoDraw 0 CovStruct.independence 1).2 =
      [(List.range 1).map (fun k => (nullFit demoOracle demoDraw 0 CovStruct.independence k).scale),
       (List.range 1).map (fun k => (altFit demoOracle demoDraw 0 CovStruct.independence k).scale)] ∧
    (dosim demoOracle demoDraw 0 CovStruct.independence 1).2.map (fun l => l.length) = [1, 1] :=
  dosim_summary demoOracle demoDraw 0 CovStruct.independence 1 (by norm_num)

/-- Witness for the C4 identity at `scale = 10`, `mean = 3` over `ℚ`. -/
theorem negbinom_gamma_mean_identity_w :
    (1 : ℚ) < 10 ∧ (0 : ℚ) < 3 ∧ nbShape (3 : ℚ) 10 * nbGammaScale 10 = 3 :=
  ⟨by norm_num, by norm_num, negbinom_gamma_mean_identity 10 3 (by norm_num) (by norm_num)⟩

/-- Witness for the C5 theorem at `scale = 10`, `mean = 3` over `ℚ`,
including the degenerate-parameter instance at `t = 1/2 ≤ 1`. -/
theorem negbinom_division_safety_w :
    (10 : ℚ) ≠ 0 ∧ 0 < nbP (10 : ℚ) ∧ nbP (10 : ℚ) < 1 ∧ 0 < 1 - nbP (10 : ℚ) ∧
      1 - nbP (10 : ℚ) < 1 ∧ 0 < nbShape (3 : ℚ) 10 ∧ 0 < nbGammaScale (10 : ℚ) ∧
      nbP (1 : ℚ) = 0 ∧ nbShape (3 : ℚ) 1 = 0 ∧
      ¬(0 < nbP ((1 : ℚ) / 2) ∧ nbP ((1 : ℚ) / 2) < 1) := by
  obtain ⟨a1, a2, a3, a4, a5, a6, a7, a8, a9, a10⟩ :=
    negbinom_division_safety (10 : ℚ) 3 (by norm_num) (by norm_num)
  exact ⟨a1, a2, a3, a4, a5, a6, a7, a8, a9, a10 (1 / 2) (by norm_num) (by norm_num)⟩

/-- Witness for the C6 theorem at a concrete input over `ℚ`. -/
theorem negbinom_output_counts_w :
    (negbinom (fun _ _ len => List.replicate len (1 : ℚ)) (fun _ _ => 0)
        [1 / 2] [1] 10).length = [(1 : ℚ) / 2].length ∧
    ∃ kk : ℕ, (0 : ℚ) = (kk : ℚ) ∧ (0 : ℚ) ≤ 0 := by
  have h := negbinom_output_counts (fun _ _ len => List.replicate len (1 : ℚ))
    (fun _ _ => 0) [1 / 2] [1] 10
    (fun shapes s len => by simp)
    (fun q mv hq0 hq1 => ⟨0, by norm_num⟩)
    (by
      intro v hv
      simp only [List.mem_singleton] at hv
      rw [hv]
      norm_num)
  refine ⟨h.1, ?_⟩
  have h2 := h.2 0 (by decide)
  exact h2

/-- Witness for the C9 theorem at a concrete input over `ℚ` with
`mcrep = 1`. -/
theorem dosim_empty_and_bounds_w :
    ∃ a b : ℚ, (dosim demoOracle demoDraw 0 CovStruct.independence 1).1 = [some a, some b] ∧
      0 ≤ a ∧ a ≤ 1 ∧ 0 ≤ b ∧ b ≤ 1 :=
  (dosim_empty_and_bounds demoOracle demoDraw 0 CovStruct.independence).2.2.2 1
    (by norm_num)
    (fun s res => by
      constructor <;> norm_num [demoOracle])

end GEESim
